import Mathlib

/-!
Verification of the IceCap HTML template engine (src/IceCap.js).

The engine wraps a DOM subtree (provided by an external DOM library) and
mutates it through marker-targeted operations.  We embed the DOM subtree as a
simple tree of element and text nodes; the DOM provider's parse / serialize /
entity-escaping behaviour is out of scope (per the spec) and is modelled
opaquely: parsed-in markup is kept as a text blob, and serialization emits
tags, attributes and text verbatim.
-/

/-- Model of a DOM node: an element with a tag name, an ordered attribute
list and an ordered child list, or a text node. -/
inductive Node where
  | elem (tag : String) (attrs : List (String × String)) (children : List Node)
  | text (s : String)
deriving Repr

/-- Attribute lookup, mirroring the DOM provider's node.attr(key) getter:
first binding of the key, if any. -/
def getAttrL (a : List (String × String)) (k : String) : Option String :=
  (a.find? (fun p => p.1 = k)).map (fun p => p.2)

/-- Attribute write, mirroring node.attr(key, v): updates the existing
binding in place or appends a fresh one at the end. -/
def setAttrL (a : List (String × String)) (k v : String) : List (String × String) :=
  if a.any (fun p => p.1 = k) then
    a.map (fun p => if p.1 = k then (k, v) else p)
  else
    a ++ [(k, v)]

/-- Attribute removal, mirroring removeAttr(key). -/
def removeAttrL (a : List (String × String)) (k : String) : List (String × String) :=
  a.filter (fun p => p.1 ≠ k)

/-- Attribute-presence test, mirroring the selector [data-ice-loaded]. -/
def hasLoaded (a : List (String × String)) : Bool :=
  (getAttrL a "data-ice-loaded").isSome

/-- Selector test for [data-ice="id"], cf. line 350 of IceCap.js. -/
def isIceMatch (id : String) (a : List (String × String)) : Bool :=
  getAttrL a "data-ice" = some id

/-- Attribute list of a node (text nodes carry none). -/
def attrsOf : Node → List (String × String)
  | .elem _ a _ => a
  | .text _ => []

/-- Child list of a node (text nodes have none). -/
def childrenOf : Node → List Node
  | .elem _ _ c => c
  | .text _ => []

mutual

/-- Serialization of one node (DOM provider capability; no entity escaping
modelled). -/
def serializeNode : Node → String
  | .text s => s
  | .elem t a c =>
      "<" ++ t ++ a.foldl (fun acc p => acc ++ " " ++ p.1 ++ "=\"" ++ p.2 ++ "\"") ""
        ++ ">" ++ serializeList c ++ "</" ++ t ++ ">"

/-- Serialization of a node list, in order. -/
def serializeList : List Node → String
  | [] => ""
  | n :: ns => serializeNode n ++ serializeList ns

end

mutual

/-- Removes every data-ice-loaded attribute in the subtree, mirroring the
find + removeAttr sweep at line 364 of IceCap.js. -/
def stripLoadedNode : Node → Node
  | .text s => .text s
  | .elem t a c => .elem t (removeAttrL a "data-ice-loaded") (stripLoadedList c)

/-- List version of stripLoadedNode. -/
def stripLoadedList : List Node → List Node
  | [] => []
  | n :: ns => stripLoadedNode n :: stripLoadedList ns

end

mutual

/-- True when no element in the subtree carries a data-ice-loaded
attribute. -/
def noLoadedNode : Node → Bool
  | .text _ => true
  | .elem _ a c => !hasLoaded a && noLoadedList c

/-- List version of noLoadedNode. -/
def noLoadedList : List Node → Bool
  | [] => true
  | n :: ns => noLoadedNode n && noLoadedList ns

end

example : serializeList [Node.elem "p" [("data-ice", "name")] [Node.text "hi"]]
    = "<p data-ice=\"name\">hi</p>" := by decide

example : noLoadedList (stripLoadedList
    [Node.elem "p" [("data-ice-loaded", "1")] [Node.text "hi"]]) = true := by decide

mutual

/-- Decidable equality for nodes (hand-rolled: the nested inductive cannot
derive it). -/
def decEqNode : (a b : Node) → Decidable (a = b)
  | .elem t1 a1 c1, .elem t2 a2 c2 =>
      if h1 : t1 = t2 then
        if h2 : a1 = a2 then
          match decEqList c1 c2 with
          | .isTrue h3 => .isTrue (by rw [h1, h2, h3])
          | .isFalse h3 => .isFalse (by intro he; injection he with e1 e2 e3; exact h3 e3)
        else .isFalse (by intro he; injection he with e1 e2 e3; exact h2 e2)
      else .isFalse (by intro he; injection he with e1 e2 e3; exact h1 e1)
  | .elem _ _ _, .text _ => .isFalse (by intro he; exact Node.noConfusion he)
  | .text _, .elem _ _ _ => .isFalse (by intro he; exact Node.noConfusion he)
  | .text s1, .text s2 =>
      if h : s1 = s2 then .isTrue (by rw [h])
      else .isFalse (by intro he; injection he with e; exact h e)

/-- Decidable equality for node lists. -/
def decEqList : (a b : List Node) → Decidable (a = b)
  | [], [] => .isTrue rfl
  | [], _ :: _ => .isFalse (by intro he; exact List.noConfusion he)
  | _ :: _, [] => .isFalse (by intro he; exact List.noConfusion he)
  | n :: ns, m :: ms =>
      match decEqNode n m with
      | .isTrue h1 =>
          match decEqList ns ms with
          | .isTrue h2 => .isTrue (by rw [h1, h2])
          | .isFalse h2 => .isFalse (by intro he; injection he with e1 e2; exact h2 e2)
      | .isFalse h1 => .isFalse (by intro he; injection he with e1 e2; exact h1 e1)

end

instance : DecidableEq Node := decEqNode

mutual

/-- Concatenated text content of a node, mirroring the node.text() getter of
the DOM provider. -/
def nodeTextNode : Node → String
  | .text s => s
  | .elem _ _ c => nodeTextList c

/-- List version of nodeTextNode. -/
def nodeTextList : List Node → String
  | [] => ""
  | n :: ns => nodeTextNode n ++ nodeTextList ns

end

mutual

/-- Marker lookup over one candidate node and its subtree: collects nodes
carrying data-ice="id" in document (preorder) order, combined with the
exclusion of the _filter helper (lines 141-168): a node whose chain of
ancestors contains a data-ice-loaded carrier is skipped.  The flag under says
whether such an ancestor has already been passed.  The engine applies this to
the children of its root (find never matches the root itself). -/
def findIceNode (id : String) (under : Bool) : Node → List Node
  | .text _ => []
  | .elem t a c =>
      (if isIceMatch id a && !under then [Node.elem t a c] else [])
      ++ findIceList id (under || hasLoaded a) c

/-- List version of findIceNode; each node of the list is itself a
candidate. -/
def findIceList (id : String) (under : Bool) : List Node → List Node
  | [] => []
  | n :: ns => findIceNode id under n ++ findIceList id under ns

end

mutual

/-- Spec-worded marker resolution, for comparison with the code path: all
descendants carrying data-ice="id" in document order, minus every node that
has an ancestor carrying data-ice-loaded.  Here anc is the list of attribute
lists of all ancestors up to and including the engine root. -/
def specCollectNode (id : String) (anc : List (List (String × String))) : Node → List Node
  | .text _ => []
  | .elem t a c =>
      (if isIceMatch id a && anc.all (fun x => !hasLoaded x) then [Node.elem t a c] else [])
      ++ specCollectList id (a :: anc) c

/-- List version of specCollectNode. -/
def specCollectList (id : String) (anc : List (List (String × String))) :
    List Node → List Node
  | [] => []
  | n :: ns => specCollectNode id anc n ++ specCollectList id anc ns

end

/-- Marker resolution as the code performs it, from the engine root: find all
data-ice="id" descendants, excluding nodes below a data-ice-loaded carrier
(the ancestor chain starts at the root node itself, whose own flag counts,
matching the parents() climb of _filter). -/
def resolveNodes (r : Node) (id : String) : List Node :=
  findIceList id (hasLoaded (attrsOf r)) (childrenOf r)

/-- Marker resolution as the spec words it. -/
def specResolve (r : Node) (id : String) : List Node :=
  specCollectList id [attrsOf r] (childrenOf r)

/-- Error kinds of the engine, per the spec taxonomy (section 7): the source
throws plain Error values carrying these messages; the spec classifies the
after-close failure as InvalidState and every argument-contract failure as
InvalidArgument. -/
inductive IceErr where
  | invalidState (msg : String)
  | invalidArgument (msg : String)
deriving Repr, DecidableEq

/-- Error thrown by _nodes (line 347) when the engine is closed. -/
def closedErr : IceErr := .invalidState "can not operation after close."

/-- Error thrown by _nodes (line 348) for a missing id. -/
def idErr : IceErr := .invalidArgument "id must be specified."

/-- Error thrown by the mode switches (lines 91, 231, 420). -/
def modeErr (mode : String) : IceErr :=
  .invalidArgument ("unknown mode. mode = " ++ mode)

/-- Error thrown by the constructor (line 44). -/
def htmlArgErr : IceErr := .invalidArgument "html must be specified."

/-- Error thrown by loop (line 244) for a non-array values argument. -/
def valuesErr : IceErr := .invalidArgument "values must be array."

/-- Error thrown by loop (line 249) and into (line 334) for an invalid
callback. -/
def callbackFnErr : IceErr := .invalidArgument "callback must be function."

/-- Error thrown by loop (line 265) for an unknown callback name. -/
def callbackNameErr (name : String) : IceErr :=
  .invalidArgument ("unknown callback. callback = " ++ name)

/-- Mode constant (static get MODE_APPEND). -/
def IceCap.MODE_APPEND : String := "append"

/-- Mode constant (static get MODE_WRITE). -/
def IceCap.MODE_WRITE : String := "write"

/-- Mode constant (static get MODE_REMOVE). -/
def IceCap.MODE_REMOVE : String := "remove"

/-- Mode constant (static get MODE_PREPEND). -/
def IceCap.MODE_PREPEND : String := "prepend"

/-- Callback shorthand constant (static get CALLBACK_TEXT). -/
def IceCap.CALLBACK_TEXT : String := "text"

/-- Callback shorthand constant (static get CALLBACK_LOAD). -/
def IceCap.CALLBACK_LOAD : String := "html"

/-- Model of currentValue.replace(new RegExp(value, 'g'), ''): global
removal of every occurrence of the pattern.  The JavaScript regular
expression engine is a runtime capability; it is modelled here for literal
(metacharacter-free) patterns, where a global regex replace removes every
leftmost non-overlapping occurrence; an empty pattern leaves the subject
unchanged, as in JavaScript. -/
def regexRemoveAll (currentValue value : String) : String :=
  if value = "" then currentValue else currentValue.replace value ""

/-- The shared write-mode switch of attr (lines 72-92), load (lines 211-232)
and text (lines 401-421); the three switches compute the same transformed
value (load additionally clears the node first in write mode, which the
subsequent content write subsumes). -/
def modeTransform (mode currentValue value : String) : Except IceErr String :=
  if mode = IceCap.MODE_WRITE then .ok value
  else if mode = IceCap.MODE_APPEND then .ok (currentValue ++ value)
  else if mode = IceCap.MODE_REMOVE then .ok (regexRemoveAll currentValue value)
  else if mode = IceCap.MODE_PREPEND then .ok (value ++ currentValue)
  else .error (modeErr mode)

/-- The four recognized write-mode strings. -/
def isValidMode (mode : String) : Bool :=
  mode = IceCap.MODE_WRITE || mode = IceCap.MODE_APPEND ||
  mode = IceCap.MODE_REMOVE || mode = IceCap.MODE_PREPEND

/-- Rebuilds a node with a new child list (text nodes have no children). -/
def withChildren : Node → List Node → Node
  | .elem t a _, c => .elem t a c
  | .text s, _ => .text s

mutual

/-- Tree effect of the per-node body of text (lines 397-424): each resolved
node has its text content replaced by the transformed value (node.text(v)
substitutes a single text child).  Descendants of a written node are
discarded with it, so the traversal does not descend into a matched node —
matching the source, where a nested match is detached by its ancestor's
write before its own (invisible) turn.  An unknown mode throws at the first
matched node, before any write. -/
def textVisitNode (id v mode : String) (under : Bool) : Node → Except IceErr Node
  | .text s => .ok (.text s)
  | .elem t a c =>
      if isIceMatch id a && !under then
        match modeTransform mode (nodeTextList c) v with
        | .ok tv => .ok (.elem t a [.text tv])
        | .error e => .error e
      else
        match textVisitList id v mode (under || hasLoaded a) c with
        | .ok c2 => .ok (.elem t a c2)
        | .error e => .error e

/-- List version of textVisitNode. -/
def textVisitList (id v mode : String) (under : Bool) : List Node → Except IceErr (List Node)
  | [] => .ok []
  | n :: ns =>
      match textVisitNode id v mode under n with
      | .error e => .error e
      | .ok n2 =>
          match textVisitList id v mode under ns with
          | .error e => .error e
          | .ok ns2 => .ok (n2 :: ns2)

end

mutual

/-- Tree effect of the per-node body of attr (lines 68-95): each resolved
node has attribute key set to the transformed value.  Unlike text, an
attribute write does not detach descendants, so the traversal descends into
matched nodes too (a nested match was part of the snapshot and receives the
attribute as well).  The descent decision uses the node's original
attributes. -/
def attrVisitNode (id key v mode : String) (under : Bool) : Node → Except IceErr Node
  | .text s => .ok (.text s)
  | .elem t a c =>
      if isIceMatch id a && !under then
        match modeTransform mode ((getAttrL a key).getD "") v with
        | .ok tv =>
            match attrVisitList id key v mode (under || hasLoaded a) c with
            | .ok c2 => .ok (.elem t (setAttrL a key tv) c2)
            | .error e => .error e
        | .error e => .error e
      else
        match attrVisitList id key v mode (under || hasLoaded a) c with
        | .ok c2 => .ok (.elem t a c2)
        | .error e => .error e

/-- List version of attrVisitNode. -/
def attrVisitList (id key v mode : String) (under : Bool) :
    List Node → Except IceErr (List Node)
  | [] => .ok []
  | n :: ns =>
      match attrVisitNode id key v mode under n with
      | .error e => .error e
      | .ok n2 =>
          match attrVisitList id key v mode under ns with
          | .error e => .error e
          | .ok ns2 => .ok (n2 :: ns2)

end

mutual

/-- First phase of load (line 203): every resolved node is flagged
data-ice-loaded="1" before any content is written; this happens even when
the subsequent mode switch throws. -/
def loadFlagNode (id : String) (under : Bool) : Node → Node
  | .text s => .text s
  | .elem t a c =>
      if isIceMatch id a && !under then
        .elem t (setAttrL a "data-ice-loaded" "1") (loadFlagList id (under || hasLoaded a) c)
      else
        .elem t a (loadFlagList id (under || hasLoaded a) c)

/-- List version of loadFlagNode. -/
def loadFlagList (id : String) (under : Bool) : List Node → List Node
  | [] => []
  | n :: ns => loadFlagNode id under n :: loadFlagList id under ns

end

mutual

/-- Second phase of load (lines 207-235), running on the tree already
flagged by the first phase: each resolved node has its inner content
replaced by the transformed value (current value = serialized inner
content, node.html(v) substitutes the parsed fragment, kept here as a text
blob).  A node freshly flagged in phase one still matches, because _filter
only excludes nodes below a flagged ancestor; nested matches are below one
and are skipped, matching the source, where an ancestor's content write
detaches them before their own (invisible) turn. -/
def loadWriteNode (id h mode : String) (under : Bool) : Node → Except IceErr Node
  | .text s => .ok (.text s)
  | .elem t a c =>
      if isIceMatch id a && !under then
        match modeTransform mode (serializeList c) h with
        | .ok tv => .ok (.elem t a [.text tv])
        | .error e => .error e
      else
        match loadWriteList id h mode (under || hasLoaded a) c with
        | .ok c2 => .ok (.elem t a c2)
        | .error e => .error e

/-- List version of loadWriteNode. -/
def loadWriteList (id h mode : String) (under : Bool) :
    List Node → Except IceErr (List Node)
  | [] => .ok []
  | n :: ns =>
      match loadWriteNode id h mode under n with
      | .error e => .error e
      | .ok n2 =>
          match loadWriteList id h mode under ns with
          | .error e => .error e
          | .ok ns2 => .ok (n2 :: ns2)

end

mutual

/-- Tree effect of nodes.remove() on the resolved set (drop, and the
empty-value paths of text, load, loop and into): every resolved node is
detached from its parent's child list.  Removal of a match removes its
subtree, so nested matches disappear with it, as in the source. -/
def removeMatchedNode (id : String) (under : Bool) : Node → Node
  | .text s => .text s
  | .elem t a c => .elem t a (removeMatchedList id (under || hasLoaded a) c)

/-- List version of removeMatchedNode; the match decision happens here, at
the parent's child list. -/
def removeMatchedList (id : String) (under : Bool) : List Node → List Node
  | [] => []
  | n :: ns =>
      if isIceMatch id (attrsOf n) && !under then removeMatchedList id under ns
      else removeMatchedNode id under n :: removeMatchedList id under ns

end

/-- Applies a child-list transform below the engine root: the root node
itself is never matched (find only returns descendants), but its own
data-ice-loaded flag counts for the ancestor exclusion. -/
def removeRoot (id : String) (r : Node) : Node :=
  withChildren r (removeMatchedList id (hasLoaded (attrsOf r)) (childrenOf r))

/-- Root-level application of the text transform. -/
def textRoot (id v mode : String) (r : Node) : Except IceErr Node :=
  (textVisitList id v mode (hasLoaded (attrsOf r)) (childrenOf r)).map (withChildren r)

/-- Root-level application of the attr transform. -/
def attrRoot (id key v mode : String) (r : Node) : Except IceErr Node :=
  (attrVisitList id key v mode (hasLoaded (attrsOf r)) (childrenOf r)).map (withChildren r)

/-- Root-level application of the load flagging phase. -/
def loadFlagRoot (id : String) (r : Node) : Node :=
  withChildren r (loadFlagList id (hasLoaded (attrsOf r)) (childrenOf r))

/-- Root-level application of the load content phase. -/
def loadWriteRoot (id h mode : String) (r : Node) : Except IceErr Node :=
  (loadWriteList id h mode (hasLoaded (attrsOf r)) (childrenOf r)).map (withChildren r)

/-- Engine instance state (constructor lines 40-59): root is the wrapped
subtree, or none once closed (and also none when the constructor accepted a
truthy argument that is neither a string nor a node, leaving _$root unset);
cacheHtml is the _html cache; autoClose and autoDrop mirror _options; the
eventbus reference is reduced to its presence, the only fact the engine
consults. -/
structure IceCap where
  root : Option Node
  cacheHtml : Option String
  autoClose : Bool
  autoDrop : Bool
  hasEventbus : Bool
deriving Repr, DecidableEq

/-- Constructor argument: a markup string, an already-parsed node (any
object with a find method), some other truthy value, or a falsy value
(undefined, null, empty string, 0, false). -/
inductive HtmlArg where
  | strH (s : String)
  | nodeH (n : Node)
  | otherTruthy
  | otherFalsy

/-- The JavaScript truthiness test !html of line 42. -/
def isFalsyArg : HtmlArg → Bool
  | .strH s => s = ""
  | .nodeH _ => false
  | .otherTruthy => false
  | .otherFalsy => true

/-- Constructor options object. -/
structure IceOptions where
  autoClose : Bool
  autoDrop : Bool
deriving Repr, DecidableEq

/-- Default options of the constructor signature (line 40). -/
def defaultOptions : IceOptions := { autoClose := true, autoDrop := true }

/-- DOM provider parse capability (cheerio.load(html).root()), modelled
opaquely: the markup is wrapped unparsed under a root container.  No claim
depends on the parsed structure of string input. -/
def parseHTML (s : String) : Node := Node.elem "#root" [] [Node.text s]

/-- The constructor (lines 40-59): rejects falsy input, wraps a string via
the parser, adopts a node directly, and silently accepts any other truthy
value while leaving the root unset. -/
def mkIceCap (html : HtmlArg) (opts : IceOptions) (bus : Bool) : Except IceErr IceCap :=
  if isFalsyArg html then .error htmlArgErr
  else
    .ok { root :=
            match html with
            | .strH s => some (parseHTML s)
            | .nodeH n => some n
            | _ => none
        , cacheHtml := none
        , autoClose := opts.autoClose
        , autoDrop := opts.autoDrop
        , hasEventbus := bus }

/-- Marker resolution entry point _nodes (lines 345-360): fails when closed,
fails on an empty id, otherwise returns the filtered matches. -/
def IceCap.nodesOf (s : IceCap) (id : String) : Except IceErr (List Node) :=
  match s.root with
  | none => .error closedErr
  | some r => if id = "" then .error idErr else .ok (resolveNodes r id)

/-- Debug diagnostic condition of _nodes (line 354): an event is emitted
exactly when the filtered result is empty, the static debug flag is on and
an eventbus was supplied. -/
def IceCap.nodesDebugEmit (s : IceCap) (id : String) (debugFlag : Bool) : Bool :=
  match IceCap.nodesOf s id with
  | .ok nodes => nodes.isEmpty && debugFlag && s.hasEventbus
  | .error _ => false

/-- Return indicator of a mutation operation: the engine itself (chaining)
or undefined (the early-exit paths). -/
inductive Ret where
  | selfR
  | undefR
deriving Repr, DecidableEq

/-- JavaScript falsiness of an optional string value (!value): true for
undefined, null and the empty string. -/
def isFalsyOptStr : Option String → Bool
  | none => true
  | some s => s = ""

/-- Serialization of the live tree for output (_takeHTML, lines 362-371):
all data-ice-loaded flags below the root are stripped, the root's inner
content is serialized, and the flags are restored on the live tree — in this
pure model the state simply keeps its tree. -/
def takeHTML (r : Node) : String := serializeList (stripLoadedList (childrenOf r))

/-- The close operation (lines 120-128): a no-op when already closed,
otherwise caches the serialized output and releases the root; always
returns the instance. -/
def IceCap.close (s : IceCap) : IceCap :=
  match s.root with
  | none => s
  | some r => { s with root := none, cacheHtml := some (takeHTML r) }

/-- The html getter (lines 170-179): on a closed instance returns the cache
unchanged; on an open instance serializes, caches, and closes as a side
effect when autoClose is set.  Returns the possibly-updated state and the
text (none models the undefined result of a rootless, never-serialized
instance). -/
def IceCap.htmlRead (s : IceCap) : IceCap × Option String :=
  match s.root with
  | none => (s, s.cacheHtml)
  | some r =>
      let h := takeHTML r
      let s2 := { s with cacheHtml := some h }
      if s.autoClose then (IceCap.close s2, some h) else (s2, some h)

/-- The text operation (lines 382-427). -/
def IceCap.text (s : IceCap) (id : String) (value : Option String) (mode : String) :
    IceCap × Except IceErr Ret :=
  match s.root with
  | none => (s, .error closedErr)
  | some r =>
      if id = "" then (s, .error idErr)
      else if s.autoDrop && isFalsyOptStr value then
        ({ s with root := some (removeRoot id r) }, .ok .undefR)
      else
        match textRoot id (value.getD "") mode r with
        | .ok r2 => ({ s with root := some r2 }, .ok .selfR)
        | .error e => (s, .error e)

/-- The attr operation (lines 61-98): no autoDrop; a missing value is
normalized to the empty string. -/
def IceCap.attr (s : IceCap) (id key : String) (value : Option String) (mode : String) :
    IceCap × Except IceErr Ret :=
  match s.root with
  | none => (s, .error closedErr)
  | some r =>
      if id = "" then (s, .error idErr)
      else
        match attrRoot id key (value.getD "") mode r with
        | .ok r2 => ({ s with root := some r2 }, .ok .selfR)
        | .error e => (s, .error e)

/-- Content argument of load: another engine (its serialized output is
pulled), any value coercible to text (its toString result), or a falsy
value, which leaves the initial empty string in place. -/
inductive LoadArg where
  | iceArg (e : IceCap)
  | strArg (s : String)
  | falsyArg

/-- Content resolution of load (lines 183-192): none models the undefined
produced by reading the html of a rootless, never-serialized engine. -/
def effectiveHtml : LoadArg → Option String
  | .iceArg e => (IceCap.htmlRead e).2
  | .strArg s => some s
  | .falsyArg => some ""

/-- JavaScript string coercion applied when an undefined content value
reaches the transform. -/
def jsStr (h : Option String) : String := h.getD "undefined"

/-- The load operation (lines 181-238): resolves content, drops on empty
content under autoDrop, otherwise flags every matched node data-ice-loaded
and then writes the transformed inner content.  On an unknown mode the
flags of the first phase remain set although the operation fails. -/
def IceCap.load (s : IceCap) (id : String) (arg : LoadArg) (mode : String) :
    IceCap × Except IceErr Ret :=
  let h := effectiveHtml arg
  match s.root with
  | none => (s, .error closedErr)
  | some r =>
      if id = "" then (s, .error idErr)
      else if s.autoDrop && isFalsyOptStr h then
        ({ s with root := some (removeRoot id r) }, .ok .undefR)
      else
        let r1 := loadFlagRoot id r
        match loadWriteRoot id (jsStr h) mode r1 with
        | .ok r2 => ({ s with root := some r2 }, .ok .selfR)
        | .error e => ({ s with root := some r1 }, .error e)

/-- The drop operation (lines 130-139): a silent no-op returning undefined
when isDrop is false — even on a closed instance, since the flag is tested
before _nodes. -/
def IceCap.drop (s : IceCap) (id : String) (isDrop : Bool) : IceCap × Except IceErr Ret :=
  if !isDrop then (s, .ok .undefR)
  else
    match s.root with
    | none => (s, .error closedErr)
    | some r =>
        if id = "" then (s, .error idErr)
        else ({ s with root := some (removeRoot id r) }, .ok .selfR)

/-- Loop callback argument (lines 247-267): one of the two built-in
shorthand names, a user function, an unknown string, or a value that is
neither function nor string. -/
inductive LoopCb where
  | cbText
  | cbHtml
  | cbCustom (f : Nat → String → IceCap → IceCap)
  | cbOtherStr (name : String)
  | cbNotFn

/-- Loop values argument: an array (of values, modelled as strings) or any
non-array value (line 242). -/
inductive LoopValues where
  | arr (vs : List String)
  | notArr

/-- The throwaway div of the detached container cheerio.load of line 284. -/
def divNode : Node := Node.elem "div" [] []

/-- The detached container holding a clone during loop (lines 284-288): the
cloned node is appended to the container root, next to the parsed div. -/
def loopContainer (n : Node) : Node := Node.elem "#root" [] [divNode, n]

/-- A child engine as loop (line 292) and into (line 339) construct one:
new IceCap(node) — the node argument with the constructor's default options
and no eventbus. -/
def newDefaultEngine (n : Node) : IceCap :=
  { root := some n
  , cacheHtml := none
  , autoClose := true
  , autoDrop := true
  , hasEventbus := false }

/-- Runs the loop callback for one item (lines 252-267, 294): the text
shorthand calls child.text(id, value), the html shorthand calls
child.load(id, value), a user function runs directly.  The invalid
constructors never reach this point (loop validates first); the shorthand
calls cannot fail here (the id is non-empty and the mode is the default). -/
def runLoopCb (id : String) (cb : LoopCb) (j : Nat) (v : String) (e : IceCap) : IceCap :=
  match cb with
  | .cbText => (IceCap.text e id (some v) IceCap.MODE_APPEND).1
  | .cbHtml => (IceCap.load e id (.strArg v) IceCap.MODE_APPEND).1
  | .cbCustom f => f j v e
  | .cbOtherStr _ => e
  | .cbNotFn => e

/-- The fragment that loop inserts for one item: the clone object, as
mutated through the child engine — position 1 of the container's children
(after the div).  The source pushes the clone object itself before the
callback runs; a callback that detaches the clone from the container is
modelled by falling back to the original clone. -/
def fragOf (orig : Node) (e : IceCap) : Node :=
  match e.root with
  | some r => ((childrenOf r).get? 1).getD orig
  | none => orig

/-- The per-item inner loop of loop (lines 280-295): for each value, in
order, clone the matched node into a fresh container, run the callback on a
fresh default child engine, and collect the mutated clone followed by a
newline text node. -/
def loopFragments (id : String) (cb : LoopCb) (n : Node) : List String → Nat → List Node
  | [], _ => []
  | v :: rest, j =>
      fragOf n (runLoopCb id cb j v (newDefaultEngine (loopContainer n)))
        :: Node.text "\n" :: loopFragments id cb n rest (j + 1)

/-- Expansions contributed by the matched nodes of one child list: the
fragment sequences of each matched child, in document order; appended at
the end of that parent's child list (lines 297-304 append to node.parent(),
or to the root for a top-level node). -/
def loopExpansions (id : String) (vs : List String) (cb : LoopCb) (under : Bool) :
    List Node → List Node
  | [] => []
  | n :: ns =>
      if isIceMatch id (attrsOf n) && !under then
        loopFragments id cb n vs 0 ++ loopExpansions id vs cb under ns
      else loopExpansions id vs cb under ns

mutual

/-- Tree effect of the main loop of loop (lines 278-307): in every child
list, each matched node is removed (line 306) and its expansion fragments
are appended at the end of the same child list; non-matched nodes are
traversed for deeper matches.  Clones are built from the node as it stood
when its turn came, and fragments themselves are not re-traversed (they were
not part of the resolved snapshot). -/
def loopVisitNode (id : String) (vs : List String) (cb : LoopCb) (under : Bool) :
    Node → Node
  | .text s => .text s
  | .elem t a c =>
      .elem t a
        (loopVisitList id vs cb (under || hasLoaded a) c
          ++ loopExpansions id vs cb (under || hasLoaded a) c)

/-- Kept (non-matched) part of a child list under loop, with recursion into
the survivors. -/
def loopVisitList (id : String) (vs : List String) (cb : LoopCb) (under : Bool) :
    List Node → List Node
  | [] => []
  | n :: ns =>
      if isIceMatch id (attrsOf n) && !under then loopVisitList id vs cb under ns
      else loopVisitNode id vs cb under n :: loopVisitList id vs cb under ns

end

/-- Root-level application of the loop transform. -/
def loopRoot (id : String) (vs : List String) (cb : LoopCb) (r : Node) : Node :=
  withChildren r
    (loopVisitList id vs cb (hasLoaded (attrsOf r)) (childrenOf r)
      ++ loopExpansions id vs cb (hasLoaded (attrsOf r)) (childrenOf r))

/-- The loop operation (lines 240-310): validates the values array and the
callback before touching any state, resolves the markers, removes them
outright on an empty array, and otherwise expands each matched node into
one mutated clone per value. -/
def IceCap.loop (s : IceCap) (id : String) (values : LoopValues) (cb : LoopCb) :
    IceCap × Except IceErr Ret :=
  match values with
  | .notArr => (s, .error valuesErr)
  | .arr vs =>
      match cb with
      | .cbNotFn => (s, .error callbackFnErr)
      | .cbOtherStr name => (s, .error (callbackNameErr name))
      | cb2 =>
          match s.root with
          | none => (s, .error closedErr)
          | some r =>
              if id = "" then (s, .error idErr)
              else if vs.isEmpty then
                ({ s with root := some (removeRoot id r) }, .ok .undefR)
              else
                ({ s with root := some (loopRoot id vs cb2 r) }, .ok .selfR)

/-- Value argument of into: a string, an array (of strings), or an absent
value (null or undefined). -/
inductive IntoVal where
  | strV (s : String)
  | arrV (vs : List String)
  | absentV

/-- The emptiness test of into (lines 316-330): the empty string, null,
undefined, or an empty array. -/
def isEmptyIntoVal : IntoVal → Bool
  | .strV s => s = ""
  | .absentV => true
  | .arrV vs => vs.isEmpty

/-- Callback argument of into: a function or anything else. -/
inductive IntoCb where
  | fnI (f : IntoVal → IceCap → IceCap)
  | notFnI

mutual

/-- Tree effect of the iteration of into (lines 337-340): each matched node
is handed to the callback wrapped in a fresh default child engine, and is
replaced in place by the engine's mutated root.  Nested matches below a
matched node are modelled as handled only at the outermost level. -/
def intoVisitNode (id : String) (f : IntoVal → IceCap → IceCap) (v : IntoVal)
    (under : Bool) : Node → Node
  | .text s => .text s
  | .elem t a c => .elem t a (intoVisitList id f v (under || hasLoaded a) c)

/-- List version of intoVisitNode; the replacement happens at the parent's
child list. -/
def intoVisitList (id : String) (f : IntoVal → IceCap → IceCap) (v : IntoVal)
    (under : Bool) : List Node → List Node
  | [] => []
  | n :: ns =>
      if isIceMatch id (attrsOf n) && !under then
        ((f v (newDefaultEngine n)).root.getD n) :: intoVisitList id f v under ns
      else intoVisitNode id f v under n :: intoVisitList id f v under ns

end

/-- Root-level application of the into transform. -/
def intoRoot (id : String) (f : IntoVal → IceCap → IceCap) (v : IntoVal) (r : Node) :
    Node :=
  withChildren r (intoVisitList id f v (hasLoaded (attrsOf r)) (childrenOf r))

/-- The into operation (lines 312-343): resolves the markers, removes them
on an empty value without consulting the callback, validates the callback
otherwise, and then delegates each matched node to it. -/
def IceCap.into (s : IceCap) (id : String) (v : IntoVal) (cb : IntoCb) :
    IceCap × Except IceErr Ret :=
  match s.root with
  | none => (s, .error closedErr)
  | some r =>
      if id = "" then (s, .error idErr)
      else if isEmptyIntoVal v then
        ({ s with root := some (removeRoot id r) }, .ok .undefR)
      else
        match cb with
        | .notFnI => (s, .error callbackFnErr)
        | .fnI f => ({ s with root := some (intoRoot id f v r) }, .ok .selfR)

/-- The autoClose setter (lines 105-108). -/
def IceCap.setAutoClose (s : IceCap) (b : Bool) : IceCap := { s with autoClose := b }

/-- The autoDrop setter (lines 110-113). -/
def IceCap.setAutoDrop (s : IceCap) (b : Bool) : IceCap := { s with autoDrop := b }

/-- States reachable through the public interface: a freshly constructed
engine, followed by any sequence of public operations (both their state
results and error returns leave the state component given here). -/
inductive Reachable : IceCap → Prop where
  | init (html : HtmlArg) (opts : IceOptions) (bus : Bool) (s : IceCap) :
      mkIceCap html opts bus = .ok s → Reachable s
  | stepText (s : IceCap) (id : String) (v : Option String) (mode : String) :
      Reachable s → Reachable (IceCap.text s id v mode).1
  | stepAttr (s : IceCap) (id key : String) (v : Option String) (mode : String) :
      Reachable s → Reachable (IceCap.attr s id key v mode).1
  | stepLoad (s : IceCap) (id : String) (arg : LoadArg) (mode : String) :
      Reachable s → Reachable (IceCap.load s id arg mode).1
  | stepLoop (s : IceCap) (id : String) (values : LoopValues) (cb : LoopCb) :
      Reachable s → Reachable (IceCap.loop s id values cb).1
  | stepInto (s : IceCap) (id : String) (v : IntoVal) (cb : IntoCb) :
      Reachable s → Reachable (IceCap.into s id v cb).1
  | stepDrop (s : IceCap) (id : String) (isDrop : Bool) :
      Reachable s → Reachable (IceCap.drop s id isDrop).1
  | stepClose (s : IceCap) : Reachable s → Reachable (IceCap.close s)
  | stepHtml (s : IceCap) : Reachable s → Reachable (IceCap.htmlRead s).1
  | stepSetAutoClose (s : IceCap) (b : Bool) :
      Reachable s → Reachable (IceCap.setAutoClose s b)
  | stepSetAutoDrop (s : IceCap) (b : Bool) :
      Reachable s → Reachable (IceCap.setAutoDrop s b)

theorem getAttrL_nil (k : String) : getAttrL [] k = none := rfl

theorem getAttrL_cons (p : String × String) (ps : List (String × String)) (k : String) :
    getAttrL (p :: ps) k = if p.1 = k then some p.2 else getAttrL ps k := by
  by_cases h : p.1 = k <;> simp [getAttrL, List.find?_cons, h]

theorem getAttrL_none_of_not_any (a : List (String × String)) (k : String)
    (h : a.any (fun p => p.1 = k) = false) : getAttrL a k = none := by
  induction a with
  | nil => rfl
  | cons p ps ih =>
      simp only [List.any_cons, Bool.or_eq_false_iff] at h
      rw [getAttrL_cons]
      have hp : ¬(p.1 = k) := by simpa using h.1
      simp [hp, ih h.2]

theorem getAttrL_setAttrL_same (a : List (String × String)) (k v : String) :
    getAttrL (setAttrL a k v) k = some v := by
  unfold setAttrL
  by_cases hmem : a.any (fun p => p.1 = k) = true
  · simp only [hmem, if_true]
    induction a with
    | nil => simp at hmem
    | cons p ps ih =>
        by_cases h : p.1 = k
        · simp [getAttrL_cons, h]
        · simp only [List.any_cons] at hmem
          have hps : ps.any (fun p => p.1 = k) = true := by
            simpa [h] using hmem
          simpa [getAttrL_cons, h] using ih hps
  · simp only [Bool.not_eq_true] at hmem
    simp only [hmem, Bool.false_eq_true, if_false]
    have hfa : a.find? (fun p => decide (p.1 = k)) = none := by
      have h2 : getAttrL a k = none := getAttrL_none_of_not_any a k hmem
      rw [getAttrL] at h2
      rcases hfa2 : a.find? (fun p => decide (p.1 = k)) with _ | q
      · exact hfa2
      · rw [hfa2] at h2; simp at h2
    rw [getAttrL, List.find?_append, hfa]
    simp

theorem getAttrL_map_set (a : List (String × String)) (k v k2 : String)
    (hk : k2 ≠ k) :
    getAttrL (a.map (fun p => if p.1 = k then (k, v) else p)) k2 = getAttrL a k2 := by
  induction a with
  | nil => rfl
  | cons p ps ih =>
      rw [List.map_cons, getAttrL_cons, getAttrL_cons]
      by_cases h : p.1 = k
      · have h1 : ¬((k, v).1 = k2) := by simpa using Ne.symm hk
        have h2 : ¬(p.1 = k2) := by rw [h]; exact Ne.symm hk
        simp only [h, if_true, h1, if_false, h2, ih]
      · simp only [h, if_false]
        by_cases hp2 : p.1 = k2
        · simp [hp2]
        · simp only [hp2, if_false, ih]

theorem getAttrL_setAttrL_ne (a : List (String × String)) (k v k2 : String)
    (hk : k2 ≠ k) : getAttrL (setAttrL a k v) k2 = getAttrL a k2 := by
  unfold setAttrL
  by_cases hmem : a.any (fun p => p.1 = k) = true
  · simp only [hmem, if_true]
    exact getAttrL_map_set a k v k2 hk
  · simp only [Bool.not_eq_true] at hmem
    simp only [hmem, Bool.false_eq_true, if_false]
    rw [getAttrL, List.find?_append]
    rcases hfa : a.find? (fun p => decide (p.1 = k2)) with _ | q
    · rw [getAttrL, hfa]
      have h1 : ¬((k, v).1 = k2) := by simpa using Ne.symm hk
      simp [List.find?_cons, h1]
    · rw [getAttrL, hfa]
      rfl

theorem getAttrL_removeAttrL (a : List (String × String)) (k : String) :
    getAttrL (removeAttrL a k) k = none := by
  induction a with
  | nil => rfl
  | cons p ps ih =>
      by_cases h : p.1 = k
      · simp [removeAttrL, getAttrL, h]
      · simp [removeAttrL, getAttrL, h, ih]

mutual

theorem noLoaded_strip_node (n : Node) : noLoadedNode (stripLoadedNode n) = true :=
  match n with
  | .text s => by simp [stripLoadedNode, noLoadedNode]
  | .elem t a c => by
      simp [stripLoadedNode, noLoadedNode, hasLoaded]
      exact ⟨getAttrL_removeAttrL a "data-ice-loaded", noLoaded_strip_list c⟩

theorem noLoaded_strip_list (l : List Node) : noLoadedList (stripLoadedList l) = true :=
  match l with
  | [] => by simp [stripLoadedList, noLoadedList]
  | n :: ns => by
      simp [stripLoadedList, noLoadedList]
      exact ⟨noLoaded_strip_node n, noLoaded_strip_list ns⟩

end

/-- A serialized output string: the serialization of a tree fragment free of
data-ice-loaded attributes. -/
def CleanStr (h : String) : Prop :=
  ∃ ns, h = serializeList ns ∧ noLoadedList ns = true

theorem takeHTML_clean (r : Node) : CleanStr (takeHTML r) :=
  ⟨stripLoadedList (childrenOf r), rfl, noLoaded_strip_list _⟩

theorem text_state_shape (s : IceCap) (id : String) (v : Option String) (mode : String) :
    ∃ ro, (IceCap.text s id v mode).1 = { s with root := ro } := by
  unfold IceCap.text
  repeat' split
  all_goals exact ⟨_, rfl⟩

theorem attr_state_shape (s : IceCap) (id key : String) (v : Option String) (mode : String) :
    ∃ ro, (IceCap.attr s id key v mode).1 = { s with root := ro } := by
  unfold IceCap.attr
  repeat' split
  all_goals exact ⟨_, rfl⟩

theorem load_state_shape (s : IceCap) (id : String) (arg : LoadArg) (mode : String) :
    ∃ ro, (IceCap.load s id arg mode).1 = { s with root := ro } := by
  simp only [IceCap.load]
  repeat' split
  all_goals exact ⟨_, rfl⟩

theorem loop_state_shape (s : IceCap) (id : String) (values : LoopValues) (cb : LoopCb) :
    ∃ ro, (IceCap.loop s id values cb).1 = { s with root := ro } := by
  unfold IceCap.loop
  repeat' split
  all_goals exact ⟨_, rfl⟩

theorem into_state_shape (s : IceCap) (id : String) (v : IntoVal) (cb : IntoCb) :
    ∃ ro, (IceCap.into s id v cb).1 = { s with root := ro } := by
  unfold IceCap.into
  repeat' split
  all_goals exact ⟨_, rfl⟩

theorem drop_state_shape (s : IceCap) (id : String) (isDrop : Bool) :
    ∃ ro, (IceCap.drop s id isDrop).1 = { s with root := ro } := by
  unfold IceCap.drop
  repeat' split
  all_goals exact ⟨_, rfl⟩

/-- Cache cleanliness invariant: whatever the _html cache holds was produced
by _takeHTML, hence stripped of the internal flag. -/
def CacheClean (s : IceCap) : Prop := ∀ h, s.cacheHtml = some h → CleanStr h

theorem reachable_cacheClean (s : IceCap) (hs : Reachable s) : CacheClean s := by
  induction hs with
  | init html opts bus s h =>
      intro x hx
      unfold mkIceCap at h
      split at h
      · exact absurd h (by simp)
      · rw [Except.ok.injEq] at h
        rw [← h] at hx
        simp at hx
  | stepText s id v mode hr ih =>
      intro x hx
      obtain ⟨ro, he⟩ := text_state_shape s id v mode
      rw [he] at hx
      exact ih x hx
  | stepAttr s id key v mode hr ih =>
      intro x hx
      obtain ⟨ro, he⟩ := attr_state_shape s id key v mode
      rw [he] at hx
      exact ih x hx
  | stepLoad s id arg mode hr ih =>
      intro x hx
      obtain ⟨ro, he⟩ := load_state_shape s id arg mode
      rw [he] at hx
      exact ih x hx
  | stepLoop s id values cb hr ih =>
      intro x hx
      obtain ⟨ro, he⟩ := loop_state_shape s id values cb
      rw [he] at hx
      exact ih x hx
  | stepInto s id v cb hr ih =>
      intro x hx
      obtain ⟨ro, he⟩ := into_state_shape s id v cb
      rw [he] at hx
      exact ih x hx
  | stepDrop s id isDrop hr ih =>
      intro x hx
      obtain ⟨ro, he⟩ := drop_state_shape s id isDrop
      rw [he] at hx
      exact ih x hx
  | stepClose s hr ih =>
      intro x hx
      unfold IceCap.close at hx
      split at hx
      · exact ih x hx
      · next r heq =>
          simp at hx
          rw [← hx]
          exact takeHTML_clean r
  | stepHtml s hr ih =>
      intro x hx
      unfold IceCap.htmlRead at hx
      split at hx
      · exact ih x hx
      · next r heq =>
          split at hx
          · unfold IceCap.close at hx
            rw [heq] at hx
            simp at hx
            rw [← hx]
            exact takeHTML_clean r
          · simp at hx
            rw [← hx]
            exact takeHTML_clean r
  | stepSetAutoClose s b hr ih =>
      intro x hx
      exact ih x hx
  | stepSetAutoDrop s b hr ih =>
      intro x hx
      exact ih x hx

/-- C7: under every sequence of public operations, serialization output is
the serialization of a tree carrying no data-ice-loaded attribute. -/
theorem c7_no_loaded_in_output (s : IceCap) (hs : Reachable s) (h : String)
    (hh : (IceCap.htmlRead s).2 = some h) :
    ∃ ns, h = serializeList ns ∧ noLoadedList ns = true := by
  unfold IceCap.htmlRead at hh
  split at hh
  · exact reachable_cacheClean s hs h hh
  · next r heq =>
      split at hh <;> simp at hh <;> rw [← hh] <;> exact takeHTML_clean r

def sampleTree : Node :=
  Node.elem "#root" []
    [Node.elem "p" [("data-ice", "x"), ("data-ice-loaded", "1")] [Node.text "hi"]]

def sampleEngine : IceCap :=
  { root := some sampleTree
  , cacheHtml := none, autoClose := true, autoDrop := true, hasEventbus := false }

theorem c7_witness :
    ∃ ns, "<p data-ice=\"x\">hi</p>" = serializeList ns ∧ noLoadedList ns = true :=
  c7_no_loaded_in_output sampleEngine
    (Reachable.init (.nodeH sampleTree) defaultOptions false sampleEngine rfl)
    "<p data-ice=\"x\">hi</p>" (by decide)

theorem not_any_hasLoaded (l : List (List (String × String))) :
    (!l.any (fun x => hasLoaded x)) = l.all (fun x => !hasLoaded x) := by
  induction l with
  | nil => rfl
  | cons a as ih => simp [List.any_cons, List.all_cons, ih]

mutual

theorem findIce_spec_node (id : String) (anc : List (List (String × String))) (n : Node) :
    findIceNode id (anc.any (fun x => hasLoaded x)) n = specCollectNode id anc n :=
  match n with
  | .text s => by simp [findIceNode, specCollectNode]
  | .elem t a c => by
      unfold findIceNode specCollectNode
      have h1 : (anc.any (fun x => hasLoaded x) || hasLoaded a)
          = ((a :: anc).any (fun x => hasLoaded x)) := by
        simp [List.any_cons, Bool.or_comm]
      rw [h1, findIce_spec_list id (a :: anc) c, not_any_hasLoaded]

theorem findIce_spec_list (id : String) (anc : List (List (String × String)))
    (l : List Node) :
    findIceList id (anc.any (fun x => hasLoaded x)) l = specCollectList id anc l :=
  match l with
  | [] => by simp [findIceList, specCollectList]
  | n :: ns => by
      unfold findIceList specCollectList
      rw [findIce_spec_node id anc n, findIce_spec_list id anc ns]

end

theorem resolveNodes_eq_specResolve (r : Node) (id : String) :
    resolveNodes r id = specResolve r id := by
  unfold resolveNodes specResolve
  have h : hasLoaded (attrsOf r) = ([attrsOf r].any (fun x => hasLoaded x)) := by
    simp [List.any_cons]
  rw [h, findIce_spec_list]

/-- C4: for every open instance and non-empty id, marker resolution returns
exactly the descendants of root carrying data-ice="id" in document order,
minus every node with an ancestor carrying data-ice-loaded (the spec-worded
specResolve); the empty result is a non-failure, and the only side channel
is the debug diagnostic, emitted exactly when the result is empty, debug
mode is on and a log sink is attached. -/
theorem c4_marker_resolution (s : IceCap) (r : Node) (id : String) (dbg : Bool)
    (hr : s.root = some r) (hid : id ≠ "") :
    IceCap.nodesOf s id = .ok (specResolve r id) ∧
    (IceCap.nodesDebugEmit s id dbg = true ↔
      (specResolve r id = [] ∧ dbg = true ∧ s.hasEventbus = true)) := by
  have h1 : IceCap.nodesOf s id = .ok (resolveNodes r id) := by
    unfold IceCap.nodesOf
    rw [hr]
    simp [hid]
  constructor
  · rw [h1, resolveNodes_eq_specResolve]
  · unfold IceCap.nodesDebugEmit
    rw [h1]
    simp [List.isEmpty_iff, resolveNodes_eq_specResolve, and_assoc]

theorem c4_witness :
    IceCap.nodesOf sampleEngine "x" = .ok (specResolve sampleTree "x") ∧
    (IceCap.nodesDebugEmit sampleEngine "x" true = true ↔
      (specResolve sampleTree "x" = [] ∧ true = true ∧
        sampleEngine.hasEventbus = true)) :=
  c4_marker_resolution sampleEngine sampleTree "x" true rfl (by decide)

/-- C6: for every matched node and every current value and new value, the
shared write-mode transform of text, attr and load yields the new value for
write, current ++ new for append, new ++ current for prepend, the global
regex removal of the new value for remove, and fails with InvalidArgument
on any other mode string; and the per-node bodies of text, load and attr
apply exactly this transform to the current text, inner content and
attribute value respectively. -/
theorem c6_write_modes (c v : String) :
    modeTransform IceCap.MODE_WRITE c v = .ok v ∧
    modeTransform IceCap.MODE_APPEND c v = .ok (c ++ v) ∧
    modeTransform IceCap.MODE_PREPEND c v = .ok (v ++ c) ∧
    modeTransform IceCap.MODE_REMOVE c v = .ok (regexRemoveAll c v) ∧
    (∀ mode, isValidMode mode = false →
        modeTransform mode c v = .error (modeErr mode)) ∧
    (∀ id t a ch mode, isIceMatch id a = true →
        textVisitNode id v mode false (.elem t a ch) =
          (modeTransform mode (nodeTextList ch) v).map
            (fun tv => Node.elem t a [Node.text tv])) ∧
    (∀ id t a ch mode, isIceMatch id a = true →
        loadWriteNode id v mode false (.elem t a ch) =
          (modeTransform mode (serializeList ch) v).map
            (fun tv => Node.elem t a [Node.text tv])) ∧
    (∀ id key t a mode, isIceMatch id a = true →
        attrVisitNode id key v mode false (.elem t a []) =
          (modeTransform mode ((getAttrL a key).getD "") v).map
            (fun tv => Node.elem t (setAttrL a key tv) [])) := by
  refine ⟨?_, ?_, ?_, ?_, ?_, ?_, ?_, ?_⟩
  · simp [modeTransform]
  · simp [modeTransform, IceCap.MODE_APPEND, IceCap.MODE_WRITE]
  · simp [modeTransform, IceCap.MODE_PREPEND, IceCap.MODE_WRITE, IceCap.MODE_APPEND,
      IceCap.MODE_REMOVE]
  · simp [modeTransform, IceCap.MODE_REMOVE, IceCap.MODE_WRITE, IceCap.MODE_APPEND]
  · intro mode hm
    simp only [isValidMode, Bool.or_eq_false_iff, decide_eq_false_iff_not] at hm
    obtain ⟨⟨⟨h1, h2⟩, h3⟩, h4⟩ := hm
    simp only [IceCap.MODE_WRITE, IceCap.MODE_APPEND, IceCap.MODE_REMOVE,
      IceCap.MODE_PREPEND] at h1 h2 h3 h4
    simp [modeTransform, IceCap.MODE_WRITE, IceCap.MODE_APPEND, IceCap.MODE_REMOVE,
      IceCap.MODE_PREPEND, h1, h2, h3, h4]
  · intro id t a ch mode hmatch
    unfold textVisitNode
    simp only [hmatch, Bool.not_false, Bool.and_self, if_true]
    cases hmt : modeTransform mode (nodeTextList ch) v <;> rfl
  · intro id t a ch mode hmatch
    unfold loadWriteNode
    simp only [hmatch, Bool.not_false, Bool.and_self, if_true]
    cases hmt : modeTransform mode (serializeList ch) v <;> rfl
  · intro id key t a mode hmatch
    unfold attrVisitNode
    simp only [hmatch, Bool.not_false, Bool.and_self, if_true]
    cases hmt : modeTransform mode ((getAttrL a key).getD "") v <;> rfl

theorem c6_witness :
    modeTransform IceCap.MODE_WRITE "cur" "new" = .ok "new" ∧
    modeTransform IceCap.MODE_APPEND "cur" "new" = .ok ("cur" ++ "new") ∧
    modeTransform IceCap.MODE_PREPEND "cur" "new" = .ok ("new" ++ "cur") ∧
    modeTransform IceCap.MODE_REMOVE "cur" "new" = .ok (regexRemoveAll "cur" "new") ∧
    modeTransform "bogus" "cur" "new" = .error (modeErr "bogus") := by
  obtain ⟨h1, h2, h3, h4, h5, _⟩ := c6_write_modes "cur" "new"
  exact ⟨h1, h2, h3, h4, h5 "bogus" (by decide)⟩

def rootlessEngine : IceCap :=
  { root := none, cacheHtml := none, autoClose := true, autoDrop := true
  , hasEventbus := false }

/-- C3 counterexample: a truthy constructor input that is neither markup
text nor a parsed node (a number, a plain object) is accepted without any
InvalidArgument failure — the claim says construction must fail exactly
then — and the resulting instance has no root, so its mutations fail with
the InvalidState error instead. -/
theorem c3_counterexample :
    mkIceCap .otherTruthy defaultOptions false = .ok rootlessEngine ∧
    (IceCap.text rootlessEngine "x" (some "y") IceCap.MODE_APPEND).2 =
      .error closedErr := by
  constructor
  · rfl
  · rfl

/-- C3 amended: construction fails (always with the InvalidArgument
html-must-be-specified error) exactly when the input is falsy — absent,
null, the empty string, or another falsy value; markup text and parsed
nodes yield an instance with a usable root, on which marker resolution
succeeds for every non-empty id; but any other truthy value is accepted
too, yielding an instance without root whose mutations all fail with
InvalidState. -/
theorem c3_construction (html : HtmlArg) (opts : IceOptions) (bus : Bool) :
    ((∃ e, mkIceCap html opts bus = .error e) ↔ isFalsyArg html = true) ∧
    (∀ e, mkIceCap html opts bus = .error e → e = htmlArgErr) ∧
    (∀ s str, html = .strH str → mkIceCap html opts bus = .ok s →
        s.root = some (parseHTML str)) ∧
    (∀ s n, html = .nodeH n → mkIceCap html opts bus = .ok s → s.root = some n) ∧
    (∀ s, html = .otherTruthy → mkIceCap html opts bus = .ok s → s.root = none ∧
        (∀ id v mode, (IceCap.text s id v mode).2 = .error closedErr)) ∧
    (∀ s id, mkIceCap html opts bus = .ok s → s.root.isSome = true → id ≠ "" →
        ∃ ns, IceCap.nodesOf s id = .ok ns) := by
  refine ⟨?_, ?_, ?_, ?_, ?_, ?_⟩
  · constructor
    · rintro ⟨e, he⟩
      by_contra hf
      simp only [Bool.not_eq_true] at hf
      unfold mkIceCap at he
      simp [hf] at he
    · intro hf
      exact ⟨htmlArgErr, by unfold mkIceCap; simp [hf]⟩
  · intro e he
    unfold mkIceCap at he
    split at he
    · simp at he
      exact he.symm
    · simp at he
  · rintro s str rfl hok
    unfold mkIceCap at hok
    split at hok
    · simp at hok
    · simp at hok
      rw [← hok]
  · rintro s n rfl hok
    unfold mkIceCap at hok
    split at hok
    · simp at hok
    · simp at hok
      rw [← hok]
  · rintro s rfl hok
    unfold mkIceCap at hok
    split at hok
    · simp at hok
    · simp at hok
      constructor
      · rw [← hok]
      · intro id v mode
        unfold IceCap.text
        rw [show s.root = none from by rw [← hok]]
  · intro s id hok hsome hid
    rcases hr : s.root with _ | r
    · rw [hr] at hsome
      simp at hsome
    · refine ⟨resolveNodes r id, ?_⟩
      unfold IceCap.nodesOf
      rw [hr]
      simp [hid]

def strEngine : IceCap :=
  { root := some (parseHTML "<p></p>"), cacheHtml := none, autoClose := true
  , autoDrop := true, hasEventbus := false }

theorem c3_witness :
    strEngine.root = some (parseHTML "<p></p>") ∧
    ∃ ns, IceCap.nodesOf strEngine "x" = .ok ns :=
  ⟨(c3_construction (.strH "<p></p>") defaultOptions false).2.2.1 strEngine
      "<p></p>" rfl rfl,
   (c3_construction (.strH "<p></p>") defaultOptions false).2.2.2.2.2 strEngine
      "x" rfl rfl (by decide)⟩

def closedEngine : IceCap :=
  { root := none, cacheHtml := some "<p>cached</p>", autoClose := true
  , autoDrop := true, hasEventbus := false }

/-- C1 counterexample: on a closed instance, drop with shouldDrop=false
returns successfully (undefined) instead of failing — the flag is tested
before the state check — and loop with a non-array values argument fails
with InvalidArgument rather than InvalidState, because loop validates its
arguments before consulting the state.  The claim quantifies over all
argument values of every mutation operation, so both are counterexamples. -/
theorem c1_counterexample :
    (IceCap.drop closedEngine "x" false).2 = .ok Ret.undefR ∧
    (IceCap.loop closedEngine "x" .notArr .cbText).2 = .error valuesErr := by
  constructor <;> rfl

/-- C1 amended: after close, text, attr, load and into fail with
InvalidState for every argument combination; loop fails with InvalidState
once its own argument validation passes (an array plus a valid callback),
and with InvalidArgument otherwise; drop fails with InvalidState when
shouldDrop is true but returns successfully (undefined) when it is false;
reading serialized output returns the cached text without failing and
without changing the state. -/
theorem c1_closed_behavior (s : IceCap) (hroot : s.root = none) :
    (∀ id v mode, IceCap.text s id v mode = (s, .error closedErr)) ∧
    (∀ id key v mode, IceCap.attr s id key v mode = (s, .error closedErr)) ∧
    (∀ id arg mode, IceCap.load s id arg mode = (s, .error closedErr)) ∧
    (∀ id v cb, IceCap.into s id v cb = (s, .error closedErr)) ∧
    (∀ id vs, IceCap.loop s id (.arr vs) .cbText = (s, .error closedErr)) ∧
    (∀ id vs, IceCap.loop s id (.arr vs) .cbHtml = (s, .error closedErr)) ∧
    (∀ id vs f, IceCap.loop s id (.arr vs) (.cbCustom f) = (s, .error closedErr)) ∧
    (∀ id cb, IceCap.loop s id .notArr cb = (s, .error valuesErr)) ∧
    (∀ id vs, IceCap.loop s id (.arr vs) .cbNotFn = (s, .error callbackFnErr)) ∧
    (∀ id vs name, IceCap.loop s id (.arr vs) (.cbOtherStr name) =
        (s, .error (callbackNameErr name))) ∧
    (∀ id, IceCap.drop s id true = (s, .error closedErr)) ∧
    (∀ id, IceCap.drop s id false = (s, .ok .undefR)) ∧
    IceCap.htmlRead s = (s, s.cacheHtml) := by
  refine ⟨?_, ?_, ?_, ?_, ?_, ?_, ?_, ?_, ?_, ?_, ?_, ?_, ?_⟩
  · intro id v mode
    simp [IceCap.text, hroot]
  · intro id key v mode
    simp [IceCap.attr, hroot]
  · intro id arg mode
    simp [IceCap.load, hroot]
  · intro id v cb
    simp [IceCap.into, hroot]
  · intro id vs
    simp [IceCap.loop, hroot]
  · intro id vs
    simp [IceCap.loop, hroot]
  · intro id vs f
    simp [IceCap.loop, hroot]
  · intro id cb
    simp [IceCap.loop]
  · intro id vs
    simp [IceCap.loop]
  · intro id vs name
    simp [IceCap.loop]
  · intro id
    simp [IceCap.drop, hroot]
  · intro id
    simp [IceCap.drop]
  · simp [IceCap.htmlRead, hroot]

theorem c1_witness :
    IceCap.text closedEngine "x" (some "v") "append" =
      (closedEngine, .error closedErr) ∧
    IceCap.drop closedEngine "x" true = (closedEngine, .error closedErr) ∧
    IceCap.htmlRead closedEngine = (closedEngine, some "<p>cached</p>") := by
  obtain ⟨h1, _, _, _, _, _, _, _, _, _, h11, _, h13⟩ :=
    c1_closed_behavior closedEngine rfl
  refine ⟨h1 "x" (some "v") "append", h11 "x", ?_⟩
  rw [h13]
  rfl

theorem modeTransform_ok (mode c v : String) (h : isValidMode mode = true) :
    ∃ w, modeTransform mode c v = .ok w := by
  simp only [isValidMode, Bool.or_eq_true, decide_eq_true_eq] at h
  rcases h with ((h | h) | h) | h <;> subst h <;>
    simp [modeTransform, IceCap.MODE_WRITE, IceCap.MODE_APPEND, IceCap.MODE_REMOVE,
      IceCap.MODE_PREPEND]

mutual

theorem textVisit_ok_node (id v mode : String) (h : isValidMode mode = true)
    (u : Bool) (n : Node) : ∃ m, textVisitNode id v mode u n = .ok m :=
  match n with
  | .text s => ⟨.text s, rfl⟩
  | .elem t a c => by
      unfold textVisitNode
      by_cases hm : (isIceMatch id a && !u) = true
      · obtain ⟨w, hw⟩ := modeTransform_ok mode (nodeTextList c) v h
        rw [if_pos hm, hw]
        exact ⟨_, rfl⟩
      · obtain ⟨c2, hc⟩ := textVisit_ok_list id v mode h (u || hasLoaded a) c
        rw [if_neg hm, hc]
        exact ⟨_, rfl⟩

theorem textVisit_ok_list (id v mode : String) (h : isValidMode mode = true)
    (u : Bool) (l : List Node) : ∃ m, textVisitList id v mode u l = .ok m :=
  match l with
  | [] => ⟨[], rfl⟩
  | n :: ns => by
      unfold textVisitList
      obtain ⟨m, hm⟩ := textVisit_ok_node id v mode h u n
      obtain ⟨ms, hms⟩ := textVisit_ok_list id v mode h u ns
      rw [hm, hms]
      exact ⟨_, rfl⟩

end

mutual

theorem attrVisit_ok_node (id key v mode : String) (h : isValidMode mode = true)
    (u : Bool) (n : Node) : ∃ m, attrVisitNode id key v mode u n = .ok m :=
  match n with
  | .text s => ⟨.text s, rfl⟩
  | .elem t a c => by
      unfold attrVisitNode
      obtain ⟨c2, hc⟩ := attrVisit_ok_list id key v mode h (u || hasLoaded a) c
      by_cases hm : (isIceMatch id a && !u) = true
      · obtain ⟨w, hw⟩ := modeTransform_ok mode ((getAttrL a key).getD "") v h
        rw [if_pos hm, hw, hc]
        exact ⟨_, rfl⟩
      · rw [if_neg hm, hc]
        exact ⟨_, rfl⟩

theorem attrVisit_ok_list (id key v mode : String) (h : isValidMode mode = true)
    (u : Bool) (l : List Node) : ∃ m, attrVisitList id key v mode u l = .ok m :=
  match l with
  | [] => ⟨[], rfl⟩
  | n :: ns => by
      unfold attrVisitList
      obtain ⟨m, hm⟩ := attrVisit_ok_node id key v mode h u n
      obtain ⟨ms, hms⟩ := attrVisit_ok_list id key v mode h u ns
      rw [hm, hms]
      exact ⟨_, rfl⟩

end

mutual

theorem loadWrite_ok_node (id hv mode : String) (h : isValidMode mode = true)
    (u : Bool) (n : Node) : ∃ m, loadWriteNode id hv mode u n = .ok m :=
  match n with
  | .text s => ⟨.text s, rfl⟩
  | .elem t a c => by
      unfold loadWriteNode
      by_cases hm : (isIceMatch id a && !u) = true
      · obtain ⟨w, hw⟩ := modeTransform_ok mode (serializeList c) hv h
        rw [if_pos hm, hw]
        exact ⟨_, rfl⟩
      · obtain ⟨c2, hc⟩ := loadWrite_ok_list id hv mode h (u || hasLoaded a) c
        rw [if_neg hm, hc]
        exact ⟨_, rfl⟩

theorem loadWrite_ok_list (id hv mode : String) (h : isValidMode mode = true)
    (u : Bool) (l : List Node) : ∃ m, loadWriteList id hv mode u l = .ok m :=
  match l with
  | [] => ⟨[], rfl⟩
  | n :: ns => by
      unfold loadWriteList
      obtain ⟨m, hm⟩ := loadWrite_ok_node id hv mode h u n
      obtain ⟨ms, hms⟩ := loadWrite_ok_list id hv mode h u ns
      rw [hm, hms]
      exact ⟨_, rfl⟩

end

theorem textRoot_ok (id v mode : String) (h : isValidMode mode = true) (r : Node) :
    ∃ m, textRoot id v mode r = .ok m := by
  obtain ⟨c2, hc⟩ := textVisit_ok_list id v mode h (hasLoaded (attrsOf r)) (childrenOf r)
  exact ⟨withChildren r c2, by unfold textRoot; rw [hc]; rfl⟩

theorem attrRoot_ok (id key v mode : String) (h : isValidMode mode = true) (r : Node) :
    ∃ m, attrRoot id key v mode r = .ok m := by
  obtain ⟨c2, hc⟩ :=
    attrVisit_ok_list id key v mode h (hasLoaded (attrsOf r)) (childrenOf r)
  exact ⟨withChildren r c2, by unfold attrRoot; rw [hc]; rfl⟩

theorem loadWriteRoot_ok (id hv mode : String) (h : isValidMode mode = true) (r : Node) :
    ∃ m, loadWriteRoot id hv mode r = .ok m := by
  obtain ⟨c2, hc⟩ :=
    loadWrite_ok_list id hv mode h (hasLoaded (attrsOf r)) (childrenOf r)
  exact ⟨withChildren r c2, by unfold loadWriteRoot; rw [hc]; rfl⟩

/-- C10: the early-exit paths of the mutation operations return undefined —
text and load on the autoDrop removal path, loop on an empty array, into on
an empty value, drop when shouldDrop is false — while every normally
completing mutation operation returns the engine itself for chaining. -/
theorem c10_return_values (s : IceCap) (r : Node) (id : String)
    (hr : s.root = some r) (hid : id ≠ "") :
    (∀ v mode, (s.autoDrop && isFalsyOptStr v) = true →
        (IceCap.text s id v mode).2 = .ok .undefR) ∧
    (∀ arg mode, (s.autoDrop && isFalsyOptStr (effectiveHtml arg)) = true →
        (IceCap.load s id arg mode).2 = .ok .undefR) ∧
    ((IceCap.loop s id (.arr []) .cbText).2 = .ok .undefR) ∧
    ((IceCap.loop s id (.arr []) .cbHtml).2 = .ok .undefR) ∧
    (∀ f, (IceCap.loop s id (.arr []) (.cbCustom f)).2 = .ok .undefR) ∧
    (∀ v cb, isEmptyIntoVal v = true → (IceCap.into s id v cb).2 = .ok .undefR) ∧
    ((IceCap.drop s id false).2 = .ok .undefR) ∧
    (∀ v mode, (s.autoDrop && isFalsyOptStr v) = false → isValidMode mode = true →
        (IceCap.text s id v mode).2 = .ok .selfR) ∧
    (∀ key v mode, isValidMode mode = true →
        (IceCap.attr s id key v mode).2 = .ok .selfR) ∧
    (∀ arg mode, (s.autoDrop && isFalsyOptStr (effectiveHtml arg)) = false →
        isValidMode mode = true → (IceCap.load s id arg mode).2 = .ok .selfR) ∧
    (∀ vs, vs ≠ [] → (IceCap.loop s id (.arr vs) .cbText).2 = .ok .selfR) ∧
    (∀ vs f, vs ≠ [] → (IceCap.loop s id (.arr vs) (.cbCustom f)).2 = .ok .selfR) ∧
    (∀ v f, isEmptyIntoVal v = false →
        (IceCap.into s id v (.fnI f)).2 = .ok .selfR) ∧
    ((IceCap.drop s id true).2 = .ok .selfR) := by
  refine ⟨?_, ?_, ?_, ?_, ?_, ?_, ?_, ?_, ?_, ?_, ?_, ?_, ?_, ?_⟩
  · intro v mode hdrop
    simp [IceCap.text, hr, hid, hdrop]
  · intro arg mode hdrop
    simp [IceCap.load, hr, hid, hdrop]
  · simp [IceCap.loop, hr, hid]
  · simp [IceCap.loop, hr, hid]
  · intro f
    simp [IceCap.loop, hr, hid]
  · intro v cb hempty
    simp [IceCap.into, hr, hid, hempty]
  · simp [IceCap.drop]
  · intro v mode hdrop hmode
    obtain ⟨m, hm⟩ := textRoot_ok id (v.getD "") mode hmode r
    simp [IceCap.text, hr, hid, hdrop, hm]
  · intro key v mode hmode
    obtain ⟨m, hm⟩ := attrRoot_ok id key (v.getD "") mode hmode r
    simp [IceCap.attr, hr, hid, hm]
  · intro arg mode hdrop hmode
    obtain ⟨m, hm⟩ :=
      loadWriteRoot_ok id (jsStr (effectiveHtml arg)) mode hmode (loadFlagRoot id r)
    simp [IceCap.load, hr, hid, hdrop, hm]
  · intro vs hvs
    simp [IceCap.loop, hr, hid, hvs]
  · intro vs f hvs
    simp [IceCap.loop, hr, hid, hvs]
  · intro v f hempty
    simp [IceCap.into, hr, hid, hempty]
  · simp [IceCap.drop, hr, hid]

theorem c10_witness :
    ((IceCap.text sampleEngine "x" none "append").2 = .ok Ret.undefR) ∧
    ((IceCap.drop sampleEngine "x" false).2 = .ok Ret.undefR) ∧
    ((IceCap.text sampleEngine "x" (some "v") "append").2 = .ok Ret.selfR) ∧
    ((IceCap.drop sampleEngine "x" true).2 = .ok Ret.selfR) := by
  obtain ⟨h1, _, _, _, _, _, h7, h8, _, _, _, _, _, h14⟩ :=
    c10_return_values sampleEngine sampleTree "x" rfl (by decide)
  exact ⟨h1 none "append" (by decide), h7,
    h8 (some "v") "append" (by decide) (by decide), h14⟩

/-- C9: every child engine constructed internally by loop (one per cloned
item, wrapping the clone's detached container) and by into (one per matched
node) is created as new IceCap(node) — default options autoClose=true and
autoDrop=true, no log sink — regardless of the parent's own options and
sink; indeed neither loop nor into reads anything of the parent state but
its root. -/
theorem c9_child_engine_defaults :
    (∀ n, (newDefaultEngine n).autoClose = true ∧
        (newDefaultEngine n).autoDrop = true ∧
        (newDefaultEngine n).hasEventbus = false ∧
        mkIceCap (.nodeH n) defaultOptions false = .ok (newDefaultEngine n)) ∧
    (∀ id cb n v rest j, loopFragments id cb n (v :: rest) j =
        fragOf n (runLoopCb id cb j v (newDefaultEngine (loopContainer n)))
          :: Node.text "\n" :: loopFragments id cb n rest (j + 1)) ∧
    (∀ id f v u n ns, (isIceMatch id (attrsOf n) && !u) = true →
        intoVisitList id f v u (n :: ns) =
          ((f v (newDefaultEngine n)).root.getD n) :: intoVisitList id f v u ns) ∧
    (∀ s1 s2 id vs cb, s1.root = s2.root →
        (IceCap.loop s1 id vs cb).1.root = (IceCap.loop s2 id vs cb).1.root ∧
        (IceCap.loop s1 id vs cb).2 = (IceCap.loop s2 id vs cb).2) ∧
    (∀ s1 s2 id v cb, s1.root = s2.root →
        (IceCap.into s1 id v cb).1.root = (IceCap.into s2 id v cb).1.root ∧
        (IceCap.into s1 id v cb).2 = (IceCap.into s2 id v cb).2) := by
  refine ⟨?_, ?_, ?_, ?_, ?_⟩
  · intro n
    exact ⟨rfl, rfl, rfl, rfl⟩
  · intro id cb n v rest j
    rfl
  · intro id f v u n ns hm
    unfold intoVisitList
    rw [if_pos hm]
    cases ns <;> rfl
  · intro s1 s2 id vs cb h12
    cases vs with
    | notArr => cases cb <;> simp [IceCap.loop, h12]
    | arr l =>
        rcases hsr : s2.root with _ | r
        · have h1 : s1.root = none := by rw [h12, hsr]
          cases cb <;> simp [IceCap.loop, h1, hsr]
        · have h1 : s1.root = some r := by rw [h12, hsr]
          cases cb <;> by_cases hid : id = "" <;> by_cases hl : l.isEmpty <;>
            simp [IceCap.loop, h1, hsr, hid, hl]
  · intro s1 s2 id v cb h12
    rcases hsr : s2.root with _ | r
    · have h1 : s1.root = none := by rw [h12, hsr]
      cases cb <;> simp [IceCap.into, h1, hsr]
    · have h1 : s1.root = some r := by rw [h12, hsr]
      cases cb <;> by_cases hid : id = "" <;> by_cases hv : isEmptyIntoVal v <;>
        simp [IceCap.into, h1, hsr, hid, hv]

def altEngine : IceCap :=
  { root := some sampleTree
  , cacheHtml := none, autoClose := false, autoDrop := false, hasEventbus := true }

theorem c9_witness :
    ((newDefaultEngine divNode).autoClose = true ∧
      (newDefaultEngine divNode).autoDrop = true ∧
      (newDefaultEngine divNode).hasEventbus = false ∧
      mkIceCap (.nodeH divNode) defaultOptions false = .ok (newDefaultEngine divNode)) ∧
    (IceCap.loop sampleEngine "x" (.arr ["a"]) .cbText).1.root =
      (IceCap.loop altEngine "x" (.arr ["a"]) .cbText).1.root :=
  ⟨c9_child_engine_defaults.1 divNode,
   (c9_child_engine_defaults.2.2.2.1 sampleEngine altEngine "x" (.arr ["a"])
      .cbText rfl).1⟩

def nestedTree : Node :=
  Node.elem "#root" []
    [Node.elem "div" [("data-ice", "a")] [Node.elem "span" [("data-ice", "b")] []]]

def nestedEngine : IceCap :=
  { root := some nestedTree
  , cacheHtml := none, autoClose := true, autoDrop := true, hasEventbus := false }

/-- C2 counterexample: load with an unknown mode string fails, but only
after its first phase has already flagged every matched node with
data-ice-loaded; the partial state is observable, because markers below the
flagged nodes are excluded from all later resolutions — here marker b,
resolvable before the failed call, is gone afterwards. -/
theorem c2_counterexample :
    (IceCap.load nestedEngine "a" (.strArg "x") "bogus").2 =
      .error (modeErr "bogus") ∧
    IceCap.nodesOf nestedEngine "b" =
      .ok [Node.elem "span" [("data-ice", "b")] []] ∧
    IceCap.nodesOf (IceCap.load nestedEngine "a" (.strArg "x") "bogus").1 "b" =
      .ok [] := by
  refine ⟨?_, ?_, ?_⟩ <;> rfl

/-- C2 amended: text, attr, loop, into and drop are atomic — whenever they
fail, the engine state is unchanged (text and attr validate the mode at the
first matched node before any write reaches the tree) — but load is not: on
a failure past its argument checks (an unknown mode with at least one
matched node), the data-ice-loaded flags of its first phase remain on the
tree. -/
theorem c2_atomicity (s : IceCap) :
    (∀ id v mode e, (IceCap.text s id v mode).2 = .error e →
        (IceCap.text s id v mode).1 = s) ∧
    (∀ id key v mode e, (IceCap.attr s id key v mode).2 = .error e →
        (IceCap.attr s id key v mode).1 = s) ∧
    (∀ id values cb e, (IceCap.loop s id values cb).2 = .error e →
        (IceCap.loop s id values cb).1 = s) ∧
    (∀ id v cb e, (IceCap.into s id v cb).2 = .error e →
        (IceCap.into s id v cb).1 = s) ∧
    (∀ id isDrop e, (IceCap.drop s id isDrop).2 = .error e →
        (IceCap.drop s id isDrop).1 = s) ∧
    (∀ id arg mode e, (IceCap.load s id arg mode).2 = .error e →
        (IceCap.load s id arg mode).1 = s ∨
        (∃ r, s.root = some r ∧
          (IceCap.load s id arg mode).1 = { s with root := some (loadFlagRoot id r) })) := by
  refine ⟨?_, ?_, ?_, ?_, ?_, ?_⟩
  · intro id v mode e he
    rcases hr : s.root with _ | r
    · simp [IceCap.text, hr]
    · by_cases hid : id = ""
      · simp [IceCap.text, hr, hid]
      · by_cases hdrop : (s.autoDrop && isFalsyOptStr v) = true
        · simp [IceCap.text, hr, hid, hdrop] at he
        · cases htr : textRoot id (v.getD "") mode r with
          | ok r2 => simp [IceCap.text, hr, hid, hdrop, htr] at he
          | error e2 => simp [IceCap.text, hr, hid, hdrop, htr]
  · intro id key v mode e he
    rcases hr : s.root with _ | r
    · simp [IceCap.attr, hr]
    · by_cases hid : id = ""
      · simp [IceCap.attr, hr, hid]
      · cases htr : attrRoot id key (v.getD "") mode r with
        | ok r2 => simp [IceCap.attr, hr, hid, htr] at he
        | error e2 => simp [IceCap.attr, hr, hid, htr]
  · intro id values cb e he
    cases values with
    | notArr => cases cb <;> simp [IceCap.loop]
    | arr l =>
        rcases hr : s.root with _ | r
        · cases cb <;> simp [IceCap.loop, hr]
        · cases cb <;> by_cases hid : id = "" <;> by_cases hl : l.isEmpty <;>
            simp [IceCap.loop, hr, hid, hl] at he ⊢
  · intro id v cb e he
    rcases hr : s.root with _ | r
    · simp [IceCap.into, hr]
    · by_cases hid : id = ""
      · simp [IceCap.into, hr, hid]
      · by_cases hv : isEmptyIntoVal v = true
        · simp [IceCap.into, hr, hid, hv] at he
        · cases cb <;> simp [IceCap.into, hr, hid, hv] at he ⊢
  · intro id isDrop e he
    cases isDrop with
    | false => simp [IceCap.drop]
    | true =>
        rcases hr : s.root with _ | r
        · simp [IceCap.drop, hr]
        · by_cases hid : id = ""
          · simp [IceCap.drop, hr, hid]
          · simp [IceCap.drop, hr, hid] at he
  · intro id arg mode e he
    rcases hr : s.root with _ | r
    · left
      simp [IceCap.load, hr]
    · by_cases hid : id = ""
      · left
        simp [IceCap.load, hr, hid]
      · by_cases hdrop : (s.autoDrop && isFalsyOptStr (effectiveHtml arg)) = true
        · simp [IceCap.load, hr, hid, hdrop] at he
        · cases hlw : loadWriteRoot id (jsStr (effectiveHtml arg)) mode
              (loadFlagRoot id r) with
          | ok r2 => simp [IceCap.load, hr, hid, hdrop, hlw] at he
          | error e2 =>
              right
              refine ⟨r, ?_, ?_⟩
              · rfl
              · simp [IceCap.load, hr, hid, hdrop, hlw]

theorem c2_witness :
    (IceCap.text nestedEngine "a" (some "y") "bogus").1 = nestedEngine ∧
    ((IceCap.load nestedEngine "a" (.strArg "x") "bogus").1 = nestedEngine ∨
      (∃ r, nestedEngine.root = some r ∧
        (IceCap.load nestedEngine "a" (.strArg "x") "bogus").1 =
          { nestedEngine with root := some (loadFlagRoot "a" r) })) :=
  ⟨(c2_atomicity nestedEngine).1 "a" (some "y") "bogus" (modeErr "bogus") (by rfl),
   (c2_atomicity nestedEngine).2.2.2.2.2 "a" (.strArg "x") "bogus" (modeErr "bogus")
     (by rfl)⟩

mutual

theorem findIce_removeMatched_node (id : String) (u : Bool) (n : Node)
    (h : (isIceMatch id (attrsOf n) && !u) = false) :
    findIceNode id u (removeMatchedNode id u n) = [] :=
  match n with
  | .text s => rfl
  | .elem t a c => by
      unfold removeMatchedNode findIceNode
      simp only [attrsOf] at h
      rw [if_neg (by simp [h])]
      rw [List.nil_append]
      exact findIce_removeMatched_list id (u || hasLoaded a) c

theorem findIce_removeMatched_list (id : String) (u : Bool) (l : List Node) :
    findIceList id u (removeMatchedList id u l) = [] :=
  match l with
  | [] => rfl
  | n :: ns => by
      unfold removeMatchedList
      by_cases h : (isIceMatch id (attrsOf n) && !u) = true
      · rw [if_pos h]
        exact findIce_removeMatched_list id u ns
      · rw [if_neg h]
        have h2 : (isIceMatch id (attrsOf n) && !u) = false := by
          simpa using h
        calc findIceList id u (removeMatchedNode id u n :: removeMatchedList id u ns)
            = findIceNode id u (removeMatchedNode id u n)
              ++ findIceList id u (removeMatchedList id u ns) := by
              rw [findIceList]
          _ = [] := by
              rw [findIce_removeMatched_node id u n h2,
                findIce_removeMatched_list id u ns]
              rfl

end

/-- After removing every resolvable match, nothing resolves: the removal
paths leave no resolvable marker behind. -/
theorem resolveNodes_removeRoot (r : Node) (id : String) :
    resolveNodes (removeRoot id r) id = [] := by
  unfold resolveNodes removeRoot
  cases r with
  | text s => rfl
  | elem t a c =>
      simp only [withChildren, attrsOf, childrenOf]
      exact findIce_removeMatched_list id (hasLoaded a) c

theorem isIceMatch_setAttrL (id key tv : String) (a : List (String × String))
    (hk : key ≠ "data-ice") : isIceMatch id (setAttrL a key tv) = isIceMatch id a := by
  unfold isIceMatch
  rw [getAttrL_setAttrL_ne a key tv "data-ice" (Ne.symm hk)]

theorem hasLoaded_setAttrL (key tv : String) (a : List (String × String))
    (hk : key ≠ "data-ice-loaded") : hasLoaded (setAttrL a key tv) = hasLoaded a := by
  unfold hasLoaded
  rw [getAttrL_setAttrL_ne a key tv "data-ice-loaded" (Ne.symm hk)]

mutual

theorem attrVisit_writes_node (id key v mode : String)
    (hmode : isValidMode mode = true) (hk1 : key ≠ "data-ice")
    (hk2 : key ≠ "data-ice-loaded") (u : Bool) (n : Node) :
    ∃ n2, attrVisitNode id key v mode u n = .ok n2 ∧
      (findIceNode id u n2).length = (findIceNode id u n).length ∧
      (∀ m ∈ findIceNode id u n2, (getAttrL (attrsOf m) key).isSome = true) :=
  match n with
  | .text s => ⟨.text s, rfl, rfl, by intro m hm; simp [findIceNode] at hm⟩
  | .elem t a c => by
      obtain ⟨c2, hc, hlen, hmem⟩ :=
        attrVisit_writes_list id key v mode hmode hk1 hk2 (u || hasLoaded a) c
      unfold attrVisitNode
      by_cases hm : (isIceMatch id a && !u) = true
      · obtain ⟨tv, htv⟩ := modeTransform_ok mode ((getAttrL a key).getD "") v hmode
        rw [if_pos hm, htv, hc]
        refine ⟨.elem t (setAttrL a key tv) c2, rfl, ?_, ?_⟩
        · unfold findIceNode
          rw [isIceMatch_setAttrL id key tv a hk1, hasLoaded_setAttrL key tv a hk2,
            if_pos hm, if_pos hm]
          simp only [List.singleton_append, List.length_cons]
          rw [hlen]
        · unfold findIceNode
          rw [isIceMatch_setAttrL id key tv a hk1, hasLoaded_setAttrL key tv a hk2,
            if_pos hm]
          intro m hmem2
          rcases List.mem_append.mp hmem2 with h1 | h1
          · simp only [List.mem_singleton] at h1
            subst h1
            simp [attrsOf, getAttrL_setAttrL_same]
          · exact hmem m h1
      · rw [if_neg hm, hc]
        refine ⟨.elem t a c2, rfl, ?_, ?_⟩
        · unfold findIceNode
          rw [if_neg hm, if_neg hm]
          simpa using hlen
        · unfold findIceNode
          rw [if_neg hm]
          intro m hmem2
          simp only [List.nil_append] at hmem2
          exact hmem m hmem2

theorem attrVisit_writes_list (id key v mode : String)
    (hmode : isValidMode mode = true) (hk1 : key ≠ "data-ice")
    (hk2 : key ≠ "data-ice-loaded") (u : Bool) (l : List Node) :
    ∃ l2, attrVisitList id key v mode u l = .ok l2 ∧
      (findIceList id u l2).length = (findIceList id u l).length ∧
      (∀ m ∈ findIceList id u l2, (getAttrL (attrsOf m) key).isSome = true) :=
  match l with
  | [] => ⟨[], rfl, rfl, by intro m hm; simp [findIceList] at hm⟩
  | n :: ns => by
      unfold attrVisitList
      obtain ⟨n2, hn, hnlen, hnmem⟩ :=
        attrVisit_writes_node id key v mode hmode hk1 hk2 u n
      obtain ⟨ns2, hns, hnslen, hnsmem⟩ :=
        attrVisit_writes_list id key v mode hmode hk1 hk2 u ns
      rw [hn, hns]
      refine ⟨n2 :: ns2, rfl, ?_, ?_⟩
      · unfold findIceList
        simp only [List.length_append]
        rw [hnlen, hnslen]
      · unfold findIceList
        intro m hm2
        rcases List.mem_append.mp hm2 with h1 | h1
        · exact hnmem m h1
        · exact hnsmem m h1

end

/-- C8: when autoDrop is enabled and the value passed to text is empty or
absent, text removes all matched nodes (nothing resolvable remains) and the
operation ends there with an undefined return; attr never applies autoDrop:
for every key (other than the two marker attributes the engine itself
interprets) and every value including the empty string, attr succeeds, the
resolvable match count is unchanged, and every matched node afterwards
carries the attribute key. -/
theorem c8_autodrop_policy (s : IceCap) (r : Node) (id : String)
    (hr : s.root = some r) (hid : id ≠ "") :
    (∀ v mode, s.autoDrop = true → isFalsyOptStr v = true →
        IceCap.text s id v mode =
          ({ s with root := some (removeRoot id r) }, .ok .undefR) ∧
        resolveNodes (removeRoot id r) id = []) ∧
    (∀ key v mode, isValidMode mode = true → key ≠ "data-ice" →
        key ≠ "data-ice-loaded" →
        ∃ r2, IceCap.attr s id key v mode =
            ({ s with root := some r2 }, .ok .selfR) ∧
          (resolveNodes r2 id).length = (resolveNodes r id).length ∧
          ∀ m ∈ resolveNodes r2 id, (getAttrL (attrsOf m) key).isSome = true) := by
  constructor
  · intro v mode hdrop hfalsy
    constructor
    · simp [IceCap.text, hr, hid, hdrop, hfalsy]
    · exact resolveNodes_removeRoot r id
  · intro key v mode hmode hk1 hk2
    obtain ⟨l2, hl, hlen, hmem⟩ :=
      attrVisit_writes_list id key (v.getD "") mode hmode hk1 hk2
        (hasLoaded (attrsOf r)) (childrenOf r)
    refine ⟨withChildren r l2, ?_, ?_, ?_⟩
    · simp [IceCap.attr, hr, hid, attrRoot, hl, Except.map]
    · cases r with
      | text s2 =>
          simp [attrVisitList] at hl
          subst hl
          rfl
      | elem t a c =>
          simp only [resolveNodes, withChildren, attrsOf, childrenOf] at hlen ⊢
          exact hlen
    · cases r with
      | text s2 =>
          simp [attrVisitList] at hl
          subst hl
          intro m hm2
          simp [resolveNodes, withChildren, childrenOf, findIceList] at hm2
      | elem t a c =>
          simp only [resolveNodes, withChildren, attrsOf, childrenOf] at hmem ⊢
          exact hmem

theorem c8_witness :
    (IceCap.text sampleEngine "x" none "append" =
        ({ sampleEngine with root := some (removeRoot "x" sampleTree) },
          .ok .undefR) ∧
      resolveNodes (removeRoot "x" sampleTree) "x" = []) ∧
    (∃ r2, IceCap.attr sampleEngine "x" "class" (some "") "append" =
        ({ sampleEngine with root := some r2 }, .ok .selfR) ∧
      (resolveNodes r2 "x").length = (resolveNodes sampleTree "x").length ∧
      ∀ m ∈ resolveNodes r2 "x", (getAttrL (attrsOf m) "class").isSome = true) :=
  ⟨(c8_autodrop_policy sampleEngine sampleTree "x" rfl (by decide)).1 none "append"
      rfl rfl,
   (c8_autodrop_policy sampleEngine sampleTree "x" rfl (by decide)).2 "class"
      (some "") "append" (by decide) (by decide) (by decide)⟩

def loopTree : Node :=
  Node.elem "#root" []
    [Node.elem "ul" []
      [Node.elem "li" [("data-ice", "item")] [],
       Node.elem "li" [] [Node.text "tail"]]]

def loopEngine : IceCap :=
  { root := some loopTree
  , cacheHtml := none, autoClose := true, autoDrop := true, hasEventbus := false }

/-- C5 counterexample: the marker li sits before a plain li sibling; after
loop with one item the produced clone stands at the end of the parent's
child list, after the plain sibling — not at the marker's original
position, which the claim requires. -/
theorem c5_counterexample :
    (IceCap.loop loopEngine "item" (.arr ["a"]) .cbText).1.root =
      some (Node.elem "#root" []
        [Node.elem "ul" []
          [Node.elem "li" [] [Node.text "tail"],
           Node.elem "li" [("data-ice", "item")] [Node.text "a"],
           Node.text "\n"]]) ∧
    (Node.elem "#root" []
        [Node.elem "ul" []
          [Node.elem "li" [] [Node.text "tail"],
           Node.elem "li" [("data-ice", "item")] [Node.text "a"],
           Node.text "\n"]]) ≠
      (Node.elem "#root" []
        [Node.elem "ul" []
          [Node.elem "li" [("data-ice", "item")] [Node.text "a"],
           Node.text "\n",
           Node.elem "li" [] [Node.text "tail"]]]) := by
  constructor
  · rfl
  · decide

theorem loopFragments_length (id : String) (cb : LoopCb) (n : Node)
    (vs : List String) (j : Nat) :
    (loopFragments id cb n vs j).length = 2 * vs.length := by
  induction vs generalizing j with
  | nil => rfl
  | cons v rest ih =>
      rw [loopFragments]
      simp only [List.length_cons, ih (j + 1), List.length_cons]
      ring

theorem loopFragments_get_even (id : String) (cb : LoopCb) (n : Node)
    (vs : List String) (k j : Nat) (hj : j < vs.length) :
    (loopFragments id cb n vs k).get? (2 * j) =
      some (fragOf n (runLoopCb id cb (k + j) (vs.get ⟨j, hj⟩)
        (newDefaultEngine (loopContainer n)))) := by
  induction vs generalizing k j with
  | nil => simp at hj
  | cons v rest ih =>
      cases j with
      | zero =>
          rw [loopFragments]
          simp
      | succ j2 =>
          rw [loopFragments]
          have harith : 2 * (j2 + 1) = (2 * j2) + 1 + 1 := by ring
          rw [harith]
          rw [List.get?_cons_succ, List.get?_cons_succ]
          have hj2 : j2 < rest.length := by
            simpa using Nat.lt_of_succ_lt_succ hj
          have := ih (k + 1) j2 hj2
          rw [this]
          have : k + 1 + j2 = k + (j2 + 1) := by ring
          rw [this]
          rfl

theorem loopFragments_get_odd (id : String) (cb : LoopCb) (n : Node)
    (vs : List String) (k j : Nat) (hj : j < vs.length) :
    (loopFragments id cb n vs k).get? (2 * j + 1) = some (Node.text "\n") := by
  induction vs generalizing k j with
  | nil => simp at hj
  | cons v rest ih =>
      cases j with
      | zero =>
          rw [loopFragments]
          simp
      | succ j2 =>
          rw [loopFragments]
          have harith : 2 * (j2 + 1) + 1 = ((2 * j2) + 1) + 1 + 1 := by ring
          rw [harith]
          rw [List.get?_cons_succ, List.get?_cons_succ]
          have hj2 : j2 < rest.length := by
            simpa using Nat.lt_of_succ_lt_succ hj
          exact ih (k + 1) j2 hj2

/-- C5 amended: loop(id, [], cb) removes every matched marker node and no
resolvable marker remains (no placeholder); loop with n values replaces
each matched node N as follows — N is removed from its parent's child list
and exactly n clone fragments (each followed by a newline text node) are
appended at the end of that child list, in values order (not at N's
original position: see the counterexample); fragment j is built from a
fresh clone of the original N through a fresh default child engine and
depends only on j and values[j], so the callback of item j+1 never
observes the mutations made for item j. -/
theorem c5_loop_expansion (s : IceCap) (r : Node) (id : String)
    (hr : s.root = some r) (hid : id ≠ "") (cb : LoopCb)
    (hcb : cb = .cbText ∨ cb = .cbHtml ∨ ∃ f, cb = .cbCustom f) :
    (IceCap.loop s id (.arr []) cb =
        ({ s with root := some (removeRoot id r) }, .ok .undefR) ∧
      resolveNodes (removeRoot id r) id = []) ∧
    (∀ vs, vs ≠ [] → IceCap.loop s id (.arr vs) cb =
        ({ s with root := some (loopRoot id vs cb r) }, .ok .selfR)) ∧
    (∀ n vs, (loopFragments id cb n vs 0).length = 2 * vs.length) ∧
    (∀ n vs j (hj : j < vs.length), (loopFragments id cb n vs 0).get? (2 * j) =
        some (fragOf n (runLoopCb id cb j (vs.get ⟨j, hj⟩)
          (newDefaultEngine (loopContainer n))))) ∧
    (∀ n vs j, j < vs.length →
        (loopFragments id cb n vs 0).get? (2 * j + 1) = some (Node.text "\n")) := by
  refine ⟨?_, ?_, ?_, ?_, ?_⟩
  · constructor
    · rcases hcb with h | h | ⟨f, h⟩ <;> subst h <;> simp [IceCap.loop, hr, hid]
    · exact resolveNodes_removeRoot r id
  · intro vs hvs
    rcases hcb with h | h | ⟨f, h⟩ <;> subst h <;> simp [IceCap.loop, hr, hid, hvs]
  · intro n vs
    exact loopFragments_length id cb n vs 0
  · intro n vs j hj
    have := loopFragments_get_even id cb n vs 0 j hj
    simpa using this
  · intro n vs j hj
    exact loopFragments_get_odd id cb n vs 0 j hj

theorem c5_witness :
    (IceCap.loop loopEngine "item" (.arr []) .cbText =
        ({ loopEngine with root := some (removeRoot "item" loopTree) },
          .ok .undefR) ∧
      resolveNodes (removeRoot "item" loopTree) "item" = []) ∧
    (loopFragments "item" .cbText divNode ["a", "b"] 0).length = 2 * 2 ∧
    (loopFragments "item" .cbText divNode ["a", "b"] 0).get? 2 =
      some (fragOf divNode (runLoopCb "item" .cbText 1 "b"
        (newDefaultEngine (loopContainer divNode)))) := by
  obtain ⟨h1, h2, h3, h4, h5⟩ :=
    c5_loop_expansion loopEngine loopTree "item" rfl (by decide) .cbText (Or.inl rfl)
  refine ⟨h1, h3 divNode ["a", "b"], ?_⟩
  have := h4 divNode ["a", "b"] 1 (by decide)
  simpa using this
